import Mathlib

/-!
Shallow embedding of the acquisition engine in
`src/scripts/scraping/telegram_scraper.py` (class `QuantumTelegramScraper`),
together with theorems settling the specification claims about it.

Machine integers of the Python source are modelled as `Nat`/`Int`
(Python integers are unbounded, so no wrap-around is introduced);
Python `float` weights in the engagement score are modelled as exact
rationals; fallible paths are modelled with `Option`/`Bool` results.
-/

namespace TelegramScraper

/-! ### Module-level configuration constants (source lines 43-50) -/

def MAX_RETRIES : Nat := 7

def CHUNK_SIZE : Nat := 300

def MAX_CONCURRENT_CHANNELS : Nat := 4

def IMAGE_QUALITY : Nat := 88

def MAX_ZIP_SIZE : Nat := 250 * 1024 * 1024

/-! ### Process-wide metrics (source lines 79-86)

`compressionGain` is an `Int` because the recorded per-file saving
`original_size - new_size` may be negative. -/

structure Metrics where
  messages : Nat
  media : Nat
  dataVolume : Nat
  compressionGain : Int
deriving Repr, DecidableEq

def initialMetrics : Metrics := ⟨0, 0, 0, 0⟩

/-! ### Engagement scoring (`_calculate_engagement`, source lines 448-453)

A message's `views`, `forwards` and nested `replies.replies` counters may be
absent or `None`; `getattr(..., 0) or 0` maps both cases to `0`.  The Python
float weights `0.3`, `0.5`, `0.2` and divisor `100` are modelled as exact
rationals. -/

structure EngagementInput where
  views : Option Nat
  forwards : Option Nat
  replies : Option Nat
deriving Repr, DecidableEq

def orZero : Option Nat → Nat
  | some n => n
  | none => 0

def calculateEngagement (msg : EngagementInput) : ℚ :=
  ((orZero msg.views : ℚ) * (3 / 10) + (orZero msg.forwards : ℚ) * (5 / 10)
    + (orZero msg.replies : ℚ) * (2 / 10)) / 100

/-! ### Message fingerprint (`_process_quantum_message`, source lines 419-423)

The source computes `hashlib.blake2b(f"{message.id}{channel}".encode(),
digest_size=16).hexdigest()`.  The BLAKE2b hash (RFC 7693, unkeyed,
16-byte digest) is embedded below over `Nat` words reduced mod `2^64`,
and the message is the UTF-8 encoding of the decimal rendering of the
message id concatenated with the channel name, exactly as in the source. -/

def U64 : Nat := 2 ^ 64

def add64 (a b : Nat) : Nat := (a + b) % U64

def rotr64 (x n : Nat) : Nat := x / 2 ^ n + x % 2 ^ n * 2 ^ (64 - n)

def BLAKE2B_IV : List Nat :=
  [0x6a09e667f3bcc908, 0xbb67ae8584caa73b, 0x3c6ef372fe94f82b, 0xa54ff53a5f1d36f1,
   0x510e527fade682d1, 0x9b05688c2b3e6c1f, 0x1f83d9abfb41bd6b, 0x5be0cd19137e2179]

def BLAKE2B_SIGMA : List (List Nat) :=
  [[0, 1, 2, 3, 4, 5, 6, 7, 8, 9, 10, 11, 12, 13, 14, 15],
   [14, 10, 4, 8, 9, 15, 13, 6, 1, 12, 0, 2, 11, 7, 5, 3],
   [11, 8, 12, 0, 5, 2, 15, 13, 10, 14, 3, 6, 7, 1, 9, 4],
   [7, 9, 3, 1, 13, 12, 11, 14, 2, 6, 5, 10, 4, 0, 15, 8],
   [9, 0, 5, 7, 2, 4, 10, 15, 14, 1, 11, 12, 6, 8, 3, 13],
   [2, 12, 6, 10, 0, 11, 8, 3, 4, 13, 7, 5, 15, 14, 1, 9],
   [12, 5, 1, 15, 14, 13, 4, 10, 0, 7, 6, 3, 9, 2, 8, 11],
   [13, 11, 7, 14, 12, 1, 3, 9, 5, 0, 15, 4, 8, 6, 2, 10],
   [6, 15, 14, 9, 11, 3, 0, 8, 12, 2, 13, 7, 1, 4, 10, 5],
   [10, 2, 8, 4, 7, 6, 1, 5, 15, 11, 9, 14, 3, 12, 13, 0]]

def mixG (v : List Nat) (a b c d x y : Nat) : List Nat :=
  let va0 := add64 (add64 (v.getD a 0) (v.getD b 0)) x
  let vd0 := rotr64 (v.getD d 0 ^^^ va0) 32
  let vc0 := add64 (v.getD c 0) vd0
  let vb0 := rotr64 (v.getD b 0 ^^^ vc0) 24
  let va1 := add64 (add64 va0 vb0) y
  let vd1 := rotr64 (vd0 ^^^ va1) 16
  let vc1 := add64 vc0 vd1
  let vb1 := rotr64 (vb0 ^^^ vc1) 63
  (((v.set a va1).set b vb1).set c vc1).set d vd1

def blakeRound (m : List Nat) (v : List Nat) (r : Nat) : List Nat :=
  let s := BLAKE2B_SIGMA.getD (r % 10) []
  let mi := fun i => m.getD (s.getD i 0) 0
  let v1 := mixG v 0 4 8 12 (mi 0) (mi 1)
  let v2 := mixG v1 1 5 9 13 (mi 2) (mi 3)
  let v3 := mixG v2 2 6 10 14 (mi 4) (mi 5)
  let v4 := mixG v3 3 7 11 15 (mi 6) (mi 7)
  let v5 := mixG v4 0 5 10 15 (mi 8) (mi 9)
  let v6 := mixG v5 1 6 11 12 (mi 10) (mi 11)
  let v7 := mixG v6 2 7 8 13 (mi 12) (mi 13)
  mixG v7 3 4 9 14 (mi 14) (mi 15)

def blakeCompress (h m : List Nat) (t : Nat) (lastBlock : Bool) : List Nat :=
  let v0 := h ++ BLAKE2B_IV
  let v1 := v0.set 12 (v0.getD 12 0 ^^^ t % U64)
  let v2 := v1.set 13 (v1.getD 13 0 ^^^ t / U64 % U64)
  let v3 := if lastBlock then v2.set 14 (v2.getD 14 0 ^^^ (U64 - 1)) else v2
  let vf := (List.range 12).foldl (blakeRound m) v3
  (List.range 8).map (fun i => h.getD i 0 ^^^ vf.getD i 0 ^^^ vf.getD (i + 8) 0)

/-- 16 little-endian 64-bit words of a (zero-padded) 128-byte block. -/
def bytesToWords (block : List Nat) : List Nat :=
  (List.range 16).map (fun j =>
    (List.range 8).foldl (fun acc k => acc + block.getD (8 * j + k) 0 * 2 ^ (8 * k)) 0)

def blake2bBlocks (h : List Nat) (bytes : List Nat) (t : Nat) : List Nat :=
  if hlen : bytes.length ≤ 128 then
    blakeCompress h (bytesToWords bytes) (t + bytes.length) true
  else
    blake2bBlocks (blakeCompress h (bytesToWords (bytes.take 128)) (t + 128) false)
      (bytes.drop 128) (t + 128)
termination_by bytes.length
decreasing_by simp only [List.length_drop]; omega

/-- The 16 digest bytes of unkeyed BLAKE2b with `digest_size=16`
(parameter-block word `0x0101kknn` with key length `kk = 0` and digest
length `nn = 16`, hence `0x01010010`). -/
def blake2b16 (bytes : List Nat) : List Nat :=
  let h0 := BLAKE2B_IV.set 0 (BLAKE2B_IV.getD 0 0 ^^^ 0x01010010)
  let h := blake2bBlocks h0 bytes 0
  (List.range 16).map (fun i => h.getD (i / 8) 0 / 2 ^ (8 * (i % 8)) % 256)

def hexChar (n : Nat) : Char :=
  if n < 10 then Char.ofNat (48 + n) else Char.ofNat (87 + n)

def hexChars (bs : List Nat) : List Char :=
  bs.foldr (fun b acc => hexChar (b / 16) :: hexChar (b % 16) :: acc) []

/-- `bytes.hex()` / `hexdigest()`: two lowercase hex characters per byte. -/
def hexDigest (bs : List Nat) : String := String.mk (hexChars bs)

def strBytes (s : String) : List Nat := s.toUTF8.toList.map UInt8.toNat

/-- `hashlib.blake2b(f"{message.id}{channel}".encode(), digest_size=16).hexdigest()`
(source lines 420-423). -/
def fingerprint (channel : String) (msgId : Nat) : String :=
  hexDigest (blake2b16 (strBytes (toString msgId ++ channel)))

/-! ### Archive Packager state
(`__init__` lines 87-89, `_init_quantum_zip` lines 238-251,
`_close_quantum_zip` lines 253-268, `_add_to_quantum_package` lines 270-290)

The scraper instance holds `current_zip` (the open `ZipFile`, or `None`),
`current_zip_size` (the running byte counter, reset by `_init_quantum_zip`)
and `zip_counter` (starts at 1, incremented on every archive creation).
`closedZips` and `createdSeqs` are ghost history fields recording, for
every archive the process has closed (resp. created), its final tracked
size (resp. its sequence number in creation order); the source keeps this
information only implicitly, in the container files it has written. -/

structure ZipArchive where
  seqNum : Nat
  trackedSize : Nat
deriving Repr, DecidableEq

structure PackState where
  currentZip : Option ZipArchive
  zipCounter : Nat
  closedZips : List ZipArchive
  createdSeqs : List Nat
deriving Repr, DecidableEq

/-- `self.current_zip = None; self.zip_counter = 1; self.current_zip_size = 0`
(source lines 87-89). -/
def initialPackState : PackState := ⟨none, 1, [], []⟩

/-- `_init_quantum_zip` (lines 238-251): close the open archive if any,
then create a fresh sequence-numbered container with size counter 0 and
bump `zip_counter`. -/
def initQuantumZip (st : PackState) : PackState :=
  let st1 :=
    match st.currentZip with
    | some z => { st with currentZip := none, closedZips := st.closedZips ++ [z] }
    | none => st
  { st1 with
    currentZip := some ⟨st1.zipCounter, 0⟩,
    createdSeqs := st1.createdSeqs ++ [st1.zipCounter],
    zipCounter := st1.zipCounter + 1 }

/-- `_close_quantum_zip` (lines 253-268), at the bookkeeping level used by
the rotation and sequencing claims: the current archive (if any) is
finalized and the current-archive state cleared.  Its verification /
deletion behaviour is modelled separately by `closeQuantumZipVerify`. -/
def closeQuantumZip (st : PackState) : PackState :=
  match st.currentZip with
  | some z => { st with currentZip := none, closedZips := st.closedZips ++ [z] }
  | none => st

def currentZipSize (st : PackState) : Nat :=
  match st.currentZip with
  | some z => z.trackedSize
  | none => 0

/-- `_add_to_quantum_package` (lines 270-290).  `fileExists` models
`file_path.exists()`, `fileSize` models `file_path.stat().st_size`, and
`writeOk` models whether `self.current_zip.write` succeeds (its `except`
branch returns `False` without incrementing the size counter). -/
def addToQuantumPackage (st : PackState) (fileExists writeOk : Bool) (fileSize : Nat) :
    Bool × PackState :=
  if !fileExists then (false, st)
  else if fileSize = 0 then (false, st)
  else
    let st1 :=
      if st.currentZip.isNone ∨ currentZipSize st + fileSize > MAX_ZIP_SIZE then
        initQuantumZip st
      else st
    if !writeOk then (false, st1)
    else
      match st1.currentZip with
      | some z =>
          (true, { st1 with currentZip := some { z with trackedSize := z.trackedSize + fileSize } })
      | none => (false, st1)

inductive PackOp where
  | init
  | close
  | add (fileExists writeOk : Bool) (fileSize : Nat)
deriving Repr, DecidableEq

/-- The source file of an `add` operation is itself no larger than the
archive cap (trivially true of the other operations). -/
def opSizeOK : PackOp → Prop
  | .add _ _ n => n ≤ MAX_ZIP_SIZE
  | _ => True

instance : DecidablePred opSizeOK := fun op => by
  unfold opSizeOK; cases op <;> infer_instance

def stepPack (st : PackState) : PackOp → PackState
  | .init => initQuantumZip st
  | .close => closeQuantumZip st
  | .add e w n => (addToQuantumPackage st e w n).2

/-- A process lifetime: the packager operations executed in order,
starting from the `__init__` state. -/
def runPack (ops : List PackOp) : PackState :=
  ops.foldl stepPack initialPackState

/-- All archives' tracked sizes (closed and current) stay within the cap. -/
def sizesBounded (st : PackState) : Prop :=
  (∀ z ∈ st.closedZips, z.trackedSize ≤ MAX_ZIP_SIZE) ∧
  (∀ z, st.currentZip = some z → z.trackedSize ≤ MAX_ZIP_SIZE)

/-! ### Archive close verification (`_close_quantum_zip`, lines 253-268)

After `current_zip.close()` the container is reopened read-only and
`testzip()` scans every entry's CRC.  The three outcomes of that scan are
modelled explicitly; a container whose written bytes were truncated cannot
even be reopened, so scanning it raises and lands in the `except` branch
(`verror`). -/

inductive VerifyOutcome where
  /-- `testzip()` returned `None`: every entry checksum is valid. -/
  | allOk
  /-- `testzip()` named a corrupt entry (bad CRC). -/
  | badEntry
  /-- reopening or scanning the container raised
  (e.g. a truncated, unreadable container). -/
  | verror
deriving Repr, DecidableEq

structure ZipCloseResult where
  /-- the `current_zip` attribute after the call. -/
  currentZip : Option ZipArchive
  /-- whether the container file was unlinked from disk. -/
  containerDeleted : Bool
  /-- whether a "package verified" success line was logged. -/
  loggedVerified : Bool
  /-- whether a failure/error line was logged. -/
  loggedFailure : Bool
deriving Repr, DecidableEq

/-- `_close_quantum_zip` (lines 253-268) with its verification branches:
`None` current archive is a no-op; otherwise finalize, reopen and scan,
deleting the container only when `testzip()` names a corrupt entry, and
clearing `current_zip` in the `finally` block in every case. -/
def closeQuantumZipVerify (currentZip : Option ZipArchive) (vout : VerifyOutcome) :
    ZipCloseResult :=
  match currentZip with
  | none => ⟨none, false, false, false⟩
  | some _ =>
    match vout with
    | .allOk => ⟨none, false, true, false⟩
    | .badEntry => ⟨none, true, false, true⟩
    | .verror => ⟨none, false, false, true⟩

/-! ### Media download (`_download_quantum_media`, source lines 326-413)

The operation touches exactly two filesystem paths: the final destination
`path` and its temporary sibling `temp_path`
(`path.with_name(f"{path.stem}.temp{path.suffix}")`).  A file on either
path is modelled by its byte size together with a `complete` flag that is
`false` for a partially written (interrupted) download.  The operation's
filesystem effects are modelled as an explicit event trace so that every
intermediate state — including the state at an arbitrary crash point — can
be examined. -/

structure MFile where
  size : Nat
  complete : Bool
deriving Repr, DecidableEq

structure MediaFS where
  finalFile : Option MFile
  tempFile : Option MFile
deriving Repr, DecidableEq

/-- The primitive filesystem mutations `_download_quantum_media` performs. -/
inductive FsEv where
  /-- `client.download_media(file=temp_path)` wrote (possibly partially). -/
  | writeTemp (f : MFile)
  /-- `temp_path.unlink()`. -/
  | unlinkTemp
  /-- `path.unlink()` just before the atomic commit. -/
  | unlinkFinal
  /-- `temp_path.rename(path)`. -/
  | renameTempToFinal
deriving Repr, DecidableEq

def applyEv (fs : MediaFS) : FsEv → MediaFS
  | .writeTemp f => { fs with tempFile := some f }
  | .unlinkTemp => { fs with tempFile := none }
  | .unlinkFinal => { fs with finalFile := none }
  | .renameTempToFinal => ⟨fs.tempFile, none⟩

/-- The outcome of one `client.download_media` attempt inside the retry
loop (source lines 366-378): a completed download of `size` bytes, a
timeout (possibly leaving a partial temp file of `part` bytes), or any
other exception — which the loop does not retry. -/
inductive DlAttempt where
  | ok (size : Nat)
  | timeout (part : Option Nat)
  | fail (part : Option Nat)
deriving Repr, DecidableEq

/-- `noFile` models a media object for which `download_media` returns
without producing any file (the situation the source's
"Download failed - no file created" validation guards against): then no
attempt writes any bytes. -/
def attemptEvents (noFile : Bool) : DlAttempt → List FsEv
  | .ok n => if noFile then [] else [.writeTemp ⟨n, true⟩]
  | .timeout (some n) => if noFile then [] else [.writeTemp ⟨n, false⟩]
  | .timeout none => []
  | .fail (some n) => if noFile then [] else [.writeTemp ⟨n, false⟩]
  | .fail none => []

/-- The retry loop (`for attempt in range(3)`, source lines 366-378):
`remaining` counts the attempts still allowed after the current one (2 for
the first attempt).  A completed download breaks out (`true`); a timeout
retries after backoff unless it was the last attempt, in which case it
re-raises; any other exception propagates immediately (`false`). -/
def dlLoopEvents (noFile : Bool) : Nat → List DlAttempt → List FsEv × Bool
  | _, [] => ([], false)
  | remaining, a :: rest =>
    match a with
    | .ok n => (attemptEvents noFile (.ok n), true)
    | .fail p => (attemptEvents noFile (.fail p), false)
    | .timeout p =>
      match remaining with
      | 0 => (attemptEvents noFile (.timeout p), false)
      | rem + 1 =>
        (attemptEvents noFile (.timeout p) ++ (dlLoopEvents noFile rem rest).1,
         (dlLoopEvents noFile rem rest).2)

/-- `path.exists() and path.stat().st_size > 100` (source line 332). -/
def skipValid (fs : MediaFS) : Bool :=
  match fs.finalFile with
  | some f => decide (f.size > 100)
  | none => false

/-- Validation and atomic commit (source lines 380-402), plus the `except`
cleanup (lines 404-411), applied after the retry loop produced the events
`levs` and the flag `downloaded`.  Returns (result, full event trace,
updated metrics). -/
def downloadValidate (fs0 : MediaFS) (levs : List FsEv) (downloaded : Bool)
    (m : Metrics) : Bool × List FsEv × Metrics :=
  let fsAfter := levs.foldl applyEv fs0
  if downloaded then
    match fsAfter.tempFile with
    | none => (false, levs, m)
    | some t =>
      if t.size < 100 then (false, levs ++ [.unlinkTemp], m)
      else
        (true,
         levs ++ (if fsAfter.finalFile.isSome then [FsEv.unlinkFinal] else [])
              ++ [FsEv.renameTempToFinal],
         { m with media := m.media + 1, dataVolume := m.dataVolume + t.size })
  else
    (false, levs ++ (if fsAfter.tempFile.isSome then [FsEv.unlinkTemp] else []), m)

/-- `_download_quantum_media` (lines 326-413): idempotent skip of an
existing valid target, then up to 3 download attempts into the temp path,
validation, and atomic commit; every failure path deletes the temp file if
it exists and returns `False`. -/
def downloadMedia (noFile : Bool) (fs : MediaFS) (atts : List DlAttempt)
    (m : Metrics) : Bool × List FsEv × Metrics :=
  if skipValid fs then
    (true, [],
     { m with media := m.media + 1,
              dataVolume := m.dataVolume + (fs.finalFile.map MFile.size).getD 0 })
  else
    downloadValidate fs (dlLoopEvents noFile 2 atts).1 (dlLoopEvents noFile 2 atts).2 m

/-- Result and final filesystem state of a completed (non-crashed) call. -/
def runDownload (noFile : Bool) (fs : MediaFS) (atts : List DlAttempt)
    (m : Metrics) : Bool × MediaFS × Metrics :=
  ((downloadMedia noFile fs atts m).1,
   (downloadMedia noFile fs atts m).2.1.foldl applyEv fs,
   (downloadMedia noFile fs atts m).2.2)

/-- The final destination path holds either what it held at the start, or
nothing, or a complete validated (≥ 100 byte) file — never a half-written
file produced by this operation. -/
def finalIntact (fs0 st : MediaFS) : Prop :=
  st.finalFile = fs0.finalFile ∨ st.finalFile = none ∨
  ∃ f, st.finalFile = some f ∧ f.complete = true ∧ 100 ≤ f.size

/-- Events that leave the final destination path untouched. -/
def preservesFinal : FsEv → Prop
  | .writeTemp _ => True
  | .unlinkTemp => True
  | .unlinkFinal => False
  | .renameTempToFinal => False

/-- Creation-order bookkeeping invariant: the sequence numbers handed out so
far are exactly `1, 2, ..., k` in order, and the counter reads `k + 1`. -/
def seqInv (st : PackState) : Prop :=
  st.createdSeqs = List.range' 1 st.createdSeqs.length ∧
  st.zipCounter = st.createdSeqs.length + 1

/-! ### Batch accumulation (`_scrape_quantum_channel`, source lines 574-596)

Each successfully processed message is appended to the in-memory batch
`messages`; when the batch reaches `CHUNK_SIZE` it is flushed
(`_save_quantum_messages`) and reset to `[]`; after the stream ends a
non-empty remainder is flushed.  Messages whose processing returned no
result (`None`) are skipped and do not enter the batch. -/

def stepBatch {α : Type} (acc : List (List α) × List α) (p : Option α) :
    List (List α) × List α :=
  match p with
  | none => acc
  | some x =>
      if CHUNK_SIZE ≤ (acc.2 ++ [x]).length then (acc.1 ++ [acc.2 ++ [x]], [])
      else (acc.1, acc.2 ++ [x])

/-- The in-loop flushes (in order) and the final in-memory batch after the
whole message stream was consumed. -/
def scrapeBatches {α : Type} (stream : List (Option α)) : List (List α) × List α :=
  stream.foldl stepBatch ([], [])

/-- All flushes of the channel run, including the end-of-stream flush of a
non-empty remainder. -/
def channelFlushes {α : Type} (stream : List (Option α)) : List (List α) :=
  (scrapeBatches stream).1 ++
    (if (scrapeBatches stream).2.isEmpty then [] else [(scrapeBatches stream).2])

/-! ### Message processing
(`_process_quantum_message` lines 416-446, `_extract_quantum_entities`
lines 455-469, `_handle_quantum_media` lines 471-510, `_quantum_extension`
lines 512-522)

A provider message is modelled by the attributes the pipeline reads.
`date` is the ISO rendering of `message.date` and `dateTs` its epoch
seconds; both are `none` when `message.date` is `None`.  `media` is the
message's media object, if any. -/

inductive RawMedia where
  | photo
  | document (fileName : Option String)
  | other
deriving Repr, DecidableEq

structure RawEntity where
  ename : String
  offset : Nat
  length : Nat
deriving Repr, DecidableEq

structure RawMsg where
  id : Nat
  date : Option String
  dateTs : Option Nat
  text : Option String
  views : Option Nat
  forwards : Option Nat
  replies : Option Nat
  entities : List RawEntity
  media : Option RawMedia
deriving Repr, DecidableEq

def lowerStr (s : String) : String := String.mk (s.data.map Char.toLower)

/-- `pathlib.Path(name).suffix`: the part of the name from its last dot on,
empty when the last dot is the first character or the final one. -/
def pathSuffix (nm : String) : String :=
  match ((List.range nm.length).filter (fun j => nm.data.getD j ' ' = '.')).getLast? with
  | none => ""
  | some i =>
      if 0 < i ∧ i < nm.length - 1 then String.mk (nm.data.drop i) else ""

/-- `_quantum_extension` (lines 512-522): photos default to `.jpg`,
documents derive a lowercased extension from a declared filename attribute
when present, everything else falls back to `.dat`. -/
def quantumExtension : RawMedia → String
  | .photo => ".jpg"
  | .document (some nm) => lowerStr (pathSuffix nm)
  | .document none => ".dat"
  | .other => ".dat"

/-- `type(media).__name__` for the modelled media kinds; `.other` stands in
for any further telethon media class name. -/
def mediaTypeName : RawMedia → String
  | .photo => "MessageMediaPhoto"
  | .document _ => "MessageMediaDocument"
  | .other => "MessageMediaOther"

/-- `ext.lower() in ('.jpg', '.jpeg', '.png', '.webp')` (line 490). -/
def isImageExt (ext : String) : Bool :=
  decide (lowerStr ext ∈ ([".jpg", ".jpeg", ".png", ".webp"] : List String))

structure EntityRecord where
  etype : String
  text : String
  offset : Nat
  length : Nat
deriving Repr, DecidableEq

/-- `_extract_quantum_entities` (lines 455-469): slice the message text at
each entity's offset/length (out-of-range offsets simply yield a short or
empty slice, as in Python), a falsy text yields "". -/
def extractQuantumEntities (msg : RawMsg) : List EntityRecord :=
  msg.entities.map (fun e =>
    { etype := e.ename,
      text :=
        match msg.text with
        | some t =>
            if t.isEmpty then "" else String.mk ((t.data.drop e.offset).take e.length)
        | none => ""
      offset := e.offset, length := e.length })

structure MediaDescriptor where
  path : String
  mtype : String
  size : Nat
  optimized : Bool
  saved : Int
  packaged : Bool
  package : Option String
deriving Repr, DecidableEq

/-- The environment of one `_handle_quantum_media` call: whether some step
inside its `try` block raises (`raised`), the download behaviour (as in
`runDownload`), the optimizer outcome (`some newSize` when
`_quantum_optimize_media` succeeds and rewrites the file to `newSize`
bytes, `none` when it fails and leaves the file untouched), whether the
archive write succeeds, and the current wall clock for messages without a
date. -/
structure MediaCallEnv where
  raised : Bool
  noFile : Bool
  atts : List DlAttempt
  optOutcome : Option Nat
  writeOk : Bool
  nowTs : Nat
deriving Repr, DecidableEq

/-- `_handle_quantum_media` (lines 471-510): no media yields no descriptor;
any exception in the pipeline yields no descriptor; a failed download
yields no descriptor; otherwise optimize image extensions in place
(recording bytes saved and the compression-gain metric), hand the file to
the Archive Packager, and return the descriptor with the packaging
outcome recorded. -/
def handleQuantumMedia (msg : RawMsg) (channel : String) (msgHash : String)
    (env : MediaCallEnv) (fs : MediaFS) (pack : PackState) (m : Metrics) :
    Option MediaDescriptor × MediaFS × PackState × Metrics :=
  match msg.media with
  | none => (none, fs, pack, m)
  | some media =>
    if env.raised then (none, fs, pack, m)
    else
      let ts := msg.dateTs.getD env.nowTs
      let ext := quantumExtension media
      let fname := channel ++ "_" ++ msgHash ++ "_" ++ toString ts ++ ext
      let dl := runDownload env.noFile fs env.atts m
      if !dl.1 then (none, dl.2.1, pack, dl.2.2)
      else
        let fs1 := dl.2.1
        let origSize := (fs1.finalFile.map MFile.size).getD 0
        let optResult :=
          if isImageExt ext then
            match env.optOutcome with
            | some newSize =>
                (true, (origSize : Int) - (newSize : Int),
                 { fs1 with finalFile := fs1.finalFile.map (fun f => ⟨newSize, f.complete⟩) })
            | none => (false, (0 : Int), fs1)
          else (false, (0 : Int), fs1)
        let optimized := optResult.1
        let saved := optResult.2.1
        let fs2 := optResult.2.2
        let m2 :=
          if optimized then
            { dl.2.2 with compressionGain := (dl.2.2).compressionGain + saved }
          else dl.2.2
        let newSize := (fs2.finalFile.map MFile.size).getD 0
        let packResult := addToQuantumPackage pack fs2.finalFile.isSome env.writeOk newSize
        (some { path := fname, mtype := mediaTypeName media, size := newSize,
                optimized := optimized, saved := if optimized then saved else 0,
                packaged := packResult.1,
                package := if packResult.1 then some "." else none },
         fs2, packResult.2, m2)

structure RecordMetrics where
  views : Option Nat
  forwards : Option Nat
  engagement : ℚ
deriving Repr, DecidableEq

structure MsgRecord where
  qid : String
  id : Nat
  channel : String
  timestamp : Option String
  content : String
  metrics : RecordMetrics
  entities : List EntityRecord
  media : Option MediaDescriptor
deriving Repr, DecidableEq

/-- `_process_quantum_message` (lines 416-446): compute the fingerprint,
build the full record (timestamp, content, engagement metrics, entities,
media descriptor), then increment the `messages` metric and return the
record.  None of its own steps can raise in this model, so its `except`
branch (which would skip the message) is not taken. -/
def processQuantumMessage (msg : RawMsg) (channel : String) (env : MediaCallEnv)
    (fs : MediaFS) (pack : PackState) (m : Metrics) :
    Option MsgRecord × MediaFS × PackState × Metrics :=
  let msgHash := fingerprint channel msg.id
  let hm := handleQuantumMedia msg channel msgHash env fs pack m
  (some
    { qid := msgHash, id := msg.id, channel := channel, timestamp := msg.date,
      content := msg.text.getD "",
      metrics :=
        { views := msg.views, forwards := msg.forwards,
          engagement := calculateEngagement ⟨msg.views, msg.forwards, msg.replies⟩ },
      entities := extractQuantumEntities msg,
      media := hm.1 },
   hm.2.1, hm.2.2.1, { hm.2.2.2 with messages := hm.2.2.2.messages + 1 })

/-! ### Watchdog & lifecycle
(`_watchdog_monitor` lines 194-200, `_emergency_restart` lines 202-207,
`run_quantum_acquisition` — FIRST definition lines 155-192, SECOND
definition lines 627-654)

The class body of `QuantumTelegramScraper` defines
`run_quantum_acquisition` twice; by Python class-body semantics the later
binding of a name overwrites the earlier one, so the version that runs is
the second — and only the first version creates the watchdog task. -/

structure WatchState where
  lastActivity : Nat
  zipOpen : Bool
  connected : Bool
deriving Repr, DecidableEq

inductive PollResult where
  | keepRunning (st : WatchState)
  | exited (code : Nat) (st : WatchState)
deriving Repr, DecidableEq

/-- `_emergency_restart` (lines 202-207): close any open archive,
disconnect from the provider, `raise SystemExit(3)`. -/
def emergencyRestart (st : WatchState) : PollResult :=
  .exited 3 { st with zipOpen := false, connected := false }

/-- One iteration of `_watchdog_monitor`'s poll loop (lines 196-200),
executed every 30 s: if more than 300 s elapsed since `last_activity`,
initiate the emergency restart — which raises `SystemExit`, so it cannot
run a second time. -/
def watchdogPoll (now : Nat) (st : WatchState) : PollResult :=
  if now - st.lastActivity > 300 then emergencyRestart st else .keepRunning st

inductive RunStep where
  | startWatchdog
  | scheduleChannels
  | gatherResults
  | cancelWatchdog
  | logSummary
deriving Repr, DecidableEq

/-- The coarse step sequence of the FIRST `run_quantum_acquisition`
definition (source lines 155-192). -/
def runAcquisitionStepsV1 : List RunStep :=
  [.startWatchdog, .scheduleChannels, .gatherResults, .cancelWatchdog, .logSummary]

/-- The coarse step sequence of the SECOND `run_quantum_acquisition`
definition (source lines 627-654): no watchdog task is created or
cancelled. -/
def runAcquisitionStepsV2 : List RunStep :=
  [.scheduleChannels, .gatherResults, .logSummary]

/-- The class body binds `run_quantum_acquisition` twice, in source order. -/
def classBodyDefs : List (String × List RunStep) :=
  [("run_quantum_acquisition", runAcquisitionStepsV1),
   ("run_quantum_acquisition", runAcquisitionStepsV2)]

/-- Python class-body semantics: the later binding of a name wins. -/
def resolveMethod (defs : List (String × List RunStep)) (meth : String) :
    Option (List RunStep) :=
  ((defs.filter (fun d => d.1 == meth)).getLast?).map (fun d => d.2)

/-- The `run_quantum_acquisition` that actually executes on an instance. -/
def effectiveRunSteps : List RunStep :=
  (resolveMethod classBodyDefs "run_quantum_acquisition").getD []

end TelegramScraper

namespace TelegramScraper

/-- C7: the engagement score of every message equals
(views×0.3 + forwards×0.5 + replies×0.2)/100 with each missing metric
treated as zero; in particular views=1000, forwards=50, replies=10 yields
exactly (300+25+2)/100 = 3.27, and an all-missing message scores 0. -/
theorem engagement_weighted_formula :
    (∀ msg : EngagementInput,
      calculateEngagement msg =
        ((orZero msg.views : ℚ) * 0.3 + (orZero msg.forwards : ℚ) * 0.5
          + (orZero msg.replies : ℚ) * 0.2) / 100)
    ∧ calculateEngagement ⟨some 1000, some 50, some 10⟩ = 3.27
    ∧ (3.27 : ℚ) = (300 + 25 + 2) / 100
    ∧ calculateEngagement ⟨none, none, none⟩ = 0
    ∧ calculateEngagement ⟨some 1000, none, none⟩ =
        calculateEngagement ⟨some 1000, some 0, some 0⟩ := by
  refine ⟨fun msg => ?_, ?_, ?_, ?_, ?_⟩ <;>
    norm_num [calculateEngagement, orZero]

theorem hexChars_length (bs : List Nat) : (hexChars bs).length = 2 * bs.length := by
  induction bs with
  | nil => rfl
  | cons b t ih => simp only [hexChars, List.foldr] at ih ⊢; simp [List.length]; omega

theorem blake2b16_length (bytes : List Nat) : (blake2b16 bytes).length = 16 := by
  simp [blake2b16]

/-- C3 counterexample: the claim that the fingerprint differs for any two
differing (channel, id) pairs is false: the pairs (channel "2x", id 1) and
(channel "x", id 12) differ, yet both concatenate to the string "12x" and
therefore hash to the same fingerprint. -/
theorem fingerprint_collision :
    (("2x", (1 : Nat)) ≠ ("x", (12 : Nat)))
    ∧ fingerprint "2x" 1 = fingerprint "x" 12 := by
  refine ⟨by decide, ?_⟩
  have h : (toString (1 : Nat) ++ "2x" : String) = toString (12 : Nat) ++ "x" := by decide
  simp only [fingerprint, h]

theorem initQuantumZip_currentZip (st : PackState) :
    ∃ c, (initQuantumZip st).currentZip = some ⟨c, 0⟩ := by
  unfold initQuantumZip; cases st.currentZip <;> exact ⟨_, rfl⟩

theorem initQuantumZip_closedZips (st : PackState) :
    (initQuantumZip st).closedZips = st.closedZips ∨
    ∃ z, st.currentZip = some z ∧ (initQuantumZip st).closedZips = st.closedZips ++ [z] := by
  unfold initQuantumZip
  cases hz : st.currentZip with
  | none => exact Or.inl rfl
  | some z => exact Or.inr ⟨z, rfl, rfl⟩

theorem initQuantumZip_sizesBounded {st : PackState} (h : sizesBounded st) :
    sizesBounded (initQuantumZip st) := by
  obtain ⟨hc, hcur⟩ := h
  constructor
  · rcases initQuantumZip_closedZips st with heq | ⟨z, hz, heq⟩
    · rw [heq]; exact hc
    · rw [heq]; intro w hw
      rcases List.mem_append.1 hw with h1 | h1
      · exact hc w h1
      · rw [List.mem_singleton.1 h1]; exact hcur z hz
  · obtain ⟨c, hcq⟩ := initQuantumZip_currentZip st
    intro z hz
    rw [hcq] at hz
    injection hz with h1
    rw [← h1]
    exact Nat.zero_le _

theorem closeQuantumZip_sizesBounded {st : PackState} (h : sizesBounded st) :
    sizesBounded (closeQuantumZip st) := by
  obtain ⟨hc, hcur⟩ := h
  unfold closeQuantumZip
  cases hz : st.currentZip with
  | none => exact ⟨hc, hcur⟩
  | some z =>
      refine ⟨?_, by intro w hw; cases hw⟩
      intro w hw
      rcases List.mem_append.1 hw with h1 | h1
      · exact hc w h1
      · rw [List.mem_singleton.1 h1]; exact hcur z hz

theorem addToQuantumPackage_sizesBounded {st : PackState} {e w : Bool} {n : Nat}
    (h : sizesBounded st) (hn : n ≤ MAX_ZIP_SIZE) :
    sizesBounded (addToQuantumPackage st e w n).2 := by
  unfold addToQuantumPackage
  cases e with
  | false => simpa using h
  | true =>
    by_cases h0 : n = 0
    · simpa [h0] using h
    · simp only [Bool.not_true, Bool.false_eq_true, if_false, if_neg h0]
      by_cases hcond : st.currentZip.isNone ∨ currentZipSize st + n > MAX_ZIP_SIZE
      · rw [if_pos hcond]
        have hb1 : sizesBounded (initQuantumZip st) := initQuantumZip_sizesBounded h
        cases w with
        | false => simpa using hb1
        | true =>
          obtain ⟨c, hcq⟩ := initQuantumZip_currentZip st
          simp only [Bool.not_true, Bool.false_eq_true, if_false, hcq]
          refine ⟨hb1.1, ?_⟩
          intro z hz
          injection hz with h1
          rw [← h1]
          simpa using hn
      · rw [if_neg hcond]
        push_neg at hcond
        obtain ⟨hns, hle⟩ := hcond
        cases w with
        | false => simpa using h
        | true =>
          cases hz : st.currentZip with
          | none => simp [Option.isNone, hz] at hns
          | some z =>
            simp only [Bool.not_true, Bool.false_eq_true, if_false, hz]
            refine ⟨h.1, ?_⟩
            intro z1 hz1
            injection hz1 with h1
            rw [← h1]
            have hcs : currentZipSize st = z.trackedSize := by
              unfold currentZipSize; rw [hz]
            simp only []
            omega

theorem stepPack_sizesBounded {st : PackState} {op : PackOp}
    (h : sizesBounded st) (hop : opSizeOK op) :
    sizesBounded (stepPack st op) := by
  cases op with
  | init => exact initQuantumZip_sizesBounded h
  | close => exact closeQuantumZip_sizesBounded h
  | add e w n => exact addToQuantumPackage_sizesBounded h hop

/-- C1 counterexample: with arbitrary file byte sizes the claimed invariant
fails.  A single existing, non-empty file of `MAX_ZIP_SIZE + 1` bytes is
accepted into a freshly rotated archive whose tracked size then exceeds the
250 MB cap, and when the next add rotates again, that oversized archive is
the one closed — so both "no archive's tracked size ever exceeds the
threshold" and "the archive that triggers rotation never itself exceeds the
cap" are false. -/
theorem archive_rotation_oversize_counterexample :
    (runPack [PackOp.add true true (MAX_ZIP_SIZE + 1)]).currentZip =
        some ⟨1, MAX_ZIP_SIZE + 1⟩
    ∧ (runPack [PackOp.add true true (MAX_ZIP_SIZE + 1),
                PackOp.add true true 1]).closedZips = [⟨1, MAX_ZIP_SIZE + 1⟩]
    ∧ MAX_ZIP_SIZE < MAX_ZIP_SIZE + 1 := by
  refine ⟨by decide, by decide, Nat.lt_succ_self _⟩

/-- C1 (amended): for every sequence of packager operations in which each
added file's own byte size is at most the 250 MB threshold, the rotation
check (`_add_to_quantum_package` opens a fresh archive, closing the prior
one, strictly before the write whenever no archive is open or the running
size plus the incoming size would exceed the cap) keeps every archive's
tracked size — the open one and every archive ever closed — within the
cap. -/
theorem archive_rotation_size_invariant (ops : List PackOp)
    (hsz : ∀ op ∈ ops, opSizeOK op) :
    sizesBounded (runPack ops) := by
  suffices h : ∀ st, sizesBounded st → sizesBounded (ops.foldl stepPack st) from
    h initialPackState (by refine ⟨?_, ?_⟩ <;> intro z hz <;> simp [initialPackState] at hz)
  induction ops with
  | nil => exact fun st h => h
  | cons op rest ih =>
      intro st h
      exact ih (fun o ho => hsz o (List.mem_cons_of_mem _ ho)) _
        (stepPack_sizesBounded h (hsz op (List.mem_cons_self _ _)))

/-- Witness for `archive_rotation_size_invariant`: a concrete two-add run
(the second add triggers a rotation) satisfying the size hypothesis. -/
theorem archive_rotation_size_invariant_witness :
    (∀ op ∈ [PackOp.add true true 100, PackOp.add true true (MAX_ZIP_SIZE - 50)],
        opSizeOK op)
    ∧ sizesBounded (runPack
        [PackOp.add true true 100, PackOp.add true true (MAX_ZIP_SIZE - 50)]) :=
  ⟨by decide, archive_rotation_size_invariant _ (by decide)⟩

theorem initQuantumZip_seqInv {st : PackState} (h : seqInv st) :
    seqInv (initQuantumZip st) := by
  obtain ⟨h1, h2⟩ := h
  have key : ∀ cs : List Nat, ∀ k : Nat,
      cs = List.range' 1 cs.length → k = cs.length + 1 →
      (cs ++ [k] = List.range' 1 (cs ++ [k]).length ∧
        k + 1 = (cs ++ [k]).length + 1) := by
    intro cs k hcs hk
    have hlen : (cs ++ [k]).length = cs.length + 1 := by simp
    constructor
    · rw [hlen, List.range'_1_concat, ← hcs, hk, Nat.add_comm 1 cs.length]
    · omega
  unfold initQuantumZip
  cases hz : st.currentZip with
  | none => exact key st.createdSeqs st.zipCounter h1 h2
  | some z => exact key st.createdSeqs st.zipCounter h1 h2

theorem addToQuantumPackage_seqInv {st : PackState} (h : seqInv st)
    (e w : Bool) (n : Nat) : seqInv (addToQuantumPackage st e w n).2 := by
  unfold addToQuantumPackage
  cases e with
  | false => simpa using h
  | true =>
    by_cases h0 : n = 0
    · simpa [h0] using h
    · simp only [Bool.not_true, Bool.false_eq_true, if_false, if_neg h0]
      have hb1 : seqInv (if st.currentZip.isNone ∨
          currentZipSize st + n > MAX_ZIP_SIZE then initQuantumZip st else st) := by
        split
        · exact initQuantumZip_seqInv h
        · exact h
      cases w with
      | false => simpa using hb1
      | true =>
        cases hz : (if st.currentZip.isNone ∨
            currentZipSize st + n > MAX_ZIP_SIZE then initQuantumZip st else st).currentZip with
        | none => simpa [hz] using hb1
        | some z =>
          simp only [hz, Bool.not_true, Bool.false_eq_true, if_false]
          exact hb1

theorem stepPack_seqInv {st : PackState} (h : seqInv st) (op : PackOp) :
    seqInv (stepPack st op) := by
  cases op with
  | init => exact initQuantumZip_seqInv h
  | close =>
      unfold stepPack closeQuantumZip
      cases st.currentZip with
      | none => exact h
      | some z => exact h
  | add e w n => exact addToQuantumPackage_seqInv h e w n

theorem stepPack_counter_monotone (st : PackState) (op : PackOp) :
    st.zipCounter ≤ (stepPack st op).zipCounter := by
  cases op with
  | init =>
      show st.zipCounter ≤ (initQuantumZip st).zipCounter
      unfold initQuantumZip
      cases st.currentZip with
      | none => exact Nat.le_succ _
      | some z => exact Nat.le_succ _
  | close =>
      unfold stepPack closeQuantumZip
      cases st.currentZip with
      | none => exact Nat.le_refl _
      | some z => exact Nat.le_refl _
  | add e w n =>
      show st.zipCounter ≤ (addToQuantumPackage st e w n).2.zipCounter
      unfold addToQuantumPackage
      cases e with
      | false => simp
      | true =>
        by_cases h0 : n = 0
        · simp [h0]
        · simp only [Bool.not_true, Bool.false_eq_true, if_false, if_neg h0]
          have hinit : st.zipCounter ≤ (if st.currentZip.isNone ∨
              currentZipSize st + n > MAX_ZIP_SIZE then initQuantumZip st
              else st).zipCounter := by
            split
            · unfold initQuantumZip
              cases st.currentZip with
              | none => exact Nat.le_succ _
              | some z => exact Nat.le_succ _
            · exact Nat.le_refl _
          cases w with
          | false => simpa using hinit
          | true =>
            cases hz : (if st.currentZip.isNone ∨
                currentZipSize st + n > MAX_ZIP_SIZE then initQuantumZip st
                else st).currentZip with
            | none => simpa [hz] using hinit
            | some z => simp only [hz]; simpa [hz] using hinit

theorem runPack_seqInv (ops : List PackOp) : seqInv (runPack ops) := by
  suffices h : ∀ st, seqInv st → seqInv (ops.foldl stepPack st) from
    h initialPackState ⟨rfl, rfl⟩
  induction ops with
  | nil => exact fun st h => h
  | cons op rest ih => exact fun st h => ih _ (stepPack_seqInv h op)

/-- C10: starting from the `__init__` state (`zip_counter = 1`), every run of
packager operations hands out archive sequence numbers `1, 2, ..., k` in
creation order — each creation increments the counter by exactly one, the
counter is never decremented by any operation, and the sequence numbers are
pairwise distinct and strictly increasing regardless of which channels the
operations served. -/
theorem zip_counter_sequence (ops : List PackOp) :
    (runPack ops).createdSeqs = List.range' 1 (runPack ops).createdSeqs.length
    ∧ (runPack ops).zipCounter = (runPack ops).createdSeqs.length + 1
    ∧ List.Pairwise (· < ·) (runPack ops).createdSeqs
    ∧ ∀ (st : PackState) (op : PackOp), st.zipCounter ≤ (stepPack st op).zipCounter := by
  obtain ⟨h1, h2⟩ := runPack_seqInv ops
  refine ⟨h1, h2, ?_, stepPack_counter_monotone⟩
  rw [h1, List.range'_eq_map_range]
  exact (List.sorted_lt_range _).map _ (fun a b hab => by omega)

theorem attemptEvents_writeOnly (noFile : Bool) (a : DlAttempt) (ev : FsEv)
    (hev : ev ∈ attemptEvents noFile a) : ∃ f, ev = FsEv.writeTemp f := by
  cases a with
  | ok n =>
      cases noFile
      · simp [attemptEvents] at hev; exact ⟨_, hev⟩
      · simp [attemptEvents] at hev
  | timeout p =>
      cases p with
      | none => simp [attemptEvents] at hev
      | some n =>
          cases noFile
          · simp [attemptEvents] at hev; exact ⟨_, hev⟩
          · simp [attemptEvents] at hev
  | fail p =>
      cases p with
      | none => simp [attemptEvents] at hev
      | some n =>
          cases noFile
          · simp [attemptEvents] at hev; exact ⟨_, hev⟩
          · simp [attemptEvents] at hev

theorem dlLoopEvents_writeOnly (noFile : Bool) :
    ∀ (rem : Nat) (atts : List DlAttempt) (ev : FsEv),
      ev ∈ (dlLoopEvents noFile rem atts).1 → ∃ f, ev = FsEv.writeTemp f := by
  intro rem atts
  induction atts generalizing rem with
  | nil => intro ev hev; simp [dlLoopEvents] at hev
  | cons a rest ih =>
      intro ev hev
      cases a with
      | ok n => exact attemptEvents_writeOnly _ _ _ (by simpa [dlLoopEvents] using hev)
      | fail p => exact attemptEvents_writeOnly _ _ _ (by simpa [dlLoopEvents] using hev)
      | timeout p =>
          cases rem with
          | zero => exact attemptEvents_writeOnly _ _ _ (by simpa [dlLoopEvents] using hev)
          | succ rem2 =>
              simp only [dlLoopEvents] at hev
              rcases List.mem_append.1 hev with h1 | h1
              · exact attemptEvents_writeOnly _ _ _ h1
              · exact ih rem2 ev h1

theorem writeOnly_preservesFinal {evs : List FsEv}
    (h : ∀ ev ∈ evs, ∃ f, ev = FsEv.writeTemp f) : ∀ ev ∈ evs, preservesFinal ev := by
  intro ev hev
  obtain ⟨f, hf⟩ := h ev hev
  rw [hf]; trivial

theorem foldl_preservesFinal (evs : List FsEv)
    (h : ∀ ev ∈ evs, preservesFinal ev) (fs : MediaFS) :
    (evs.foldl applyEv fs).finalFile = fs.finalFile := by
  induction evs generalizing fs with
  | nil => rfl
  | cons ev rest ih =>
      have h1 : preservesFinal ev := h ev (List.mem_cons_self _ _)
      have h2 : (applyEv fs ev).finalFile = fs.finalFile := by
        cases ev with
        | writeTemp f => rfl
        | unlinkTemp => rfl
        | unlinkFinal => exact absurd h1 (by simp [preservesFinal])
        | renameTempToFinal => exact absurd h1 (by simp [preservesFinal])
      simp only [List.foldl_cons]
      rw [ih (fun e he => h e (List.mem_cons_of_mem _ he)) _, h2]

theorem dlLoopEvents_noFile_nil :
    ∀ (rem : Nat) (atts : List DlAttempt), (dlLoopEvents true rem atts).1 = [] := by
  intro rem atts
  induction atts generalizing rem with
  | nil => simp [dlLoopEvents]
  | cons a rest ih =>
      cases a with
      | ok n => simp [dlLoopEvents, attemptEvents]
      | fail p => cases p <;> simp [dlLoopEvents, attemptEvents]
      | timeout p =>
          cases rem with
          | zero => cases p <;> simp [dlLoopEvents, attemptEvents]
          | succ rem2 => cases p <;> simp [dlLoopEvents, attemptEvents, ih rem2]

theorem dlLoopEvents_downloaded_temp :
    ∀ (rem : Nat) (atts : List DlAttempt) (fs : MediaFS),
      (dlLoopEvents false rem atts).2 = true →
      ∃ n, ((dlLoopEvents false rem atts).1.foldl applyEv fs).tempFile = some ⟨n, true⟩ := by
  intro rem atts
  induction atts generalizing rem with
  | nil => intro fs h; simp [dlLoopEvents] at h
  | cons a rest ih =>
      intro fs h
      cases a with
      | ok n =>
          refine ⟨n, ?_⟩
          simp [dlLoopEvents, attemptEvents, applyEv]
      | fail p => simp [dlLoopEvents] at h
      | timeout p =>
          cases rem with
          | zero => simp [dlLoopEvents] at h
          | succ rem2 =>
              simp only [dlLoopEvents] at h ⊢
              rw [List.foldl_append]
              exact ih rem2 _ h

theorem downloadValidate_failure (fs0 : MediaFS) (levs : List FsEv) (downloaded : Bool)
    (m : Metrics) (hw : ∀ ev ∈ levs, preservesFinal ev)
    (hres : (downloadValidate fs0 levs downloaded m).1 = false) :
    ((downloadValidate fs0 levs downloaded m).2.1.foldl applyEv fs0).tempFile = none ∧
    ((downloadValidate fs0 levs downloaded m).2.1.foldl applyEv fs0).finalFile
      = fs0.finalFile := by
  have hfin : (levs.foldl applyEv fs0).finalFile = fs0.finalFile :=
    foldl_preservesFinal levs hw fs0
  simp only [downloadValidate] at hres ⊢
  cases downloaded with
  | true =>
      simp only [if_true] at hres ⊢
      cases ht : (levs.foldl applyEv fs0).tempFile with
      | none => simp only [ht]; exact ⟨trivial, hfin⟩
      | some t =>
          simp only [ht] at hres ⊢
          by_cases hsz : t.size < 100
          · simp only [if_pos hsz] at hres ⊢
            rw [List.foldl_append]
            exact ⟨rfl, hfin⟩
          · simp only [if_neg hsz] at hres
            cases hres
  | false =>
      simp only [Bool.false_eq_true, if_false] at hres ⊢
      cases ht : (levs.foldl applyEv fs0).tempFile with
      | none =>
          simp only [ht, Option.isSome_none, Bool.false_eq_true, if_false,
            List.append_nil]
          exact ⟨trivial, hfin⟩
      | some t =>
          simp only [ht, Option.isSome_some, if_true]
          rw [List.foldl_append]
          exact ⟨rfl, hfin⟩

theorem downloadValidate_trace (fs0 : MediaFS) (levs : List FsEv) (downloaded : Bool)
    (m : Metrics) (hw : ∀ ev ∈ levs, preservesFinal ev)
    (hc : ∀ t, (levs.foldl applyEv fs0).tempFile = some t → downloaded = true →
        t.complete = true) :
    ∀ k, finalIntact fs0
      (((downloadValidate fs0 levs downloaded m).2.1.take k).foldl applyEv fs0) := by
  have hAllPres : ∀ (evs : List FsEv), (∀ ev ∈ evs, preservesFinal ev) →
      ∀ k, finalIntact fs0 ((evs.take k).foldl applyEv fs0) := fun evs hevs k =>
    Or.inl (foldl_preservesFinal _ (fun ev hev => hevs ev (List.take_subset _ _ hev)) fs0)
  have hwU : ∀ (evs : List FsEv), (∀ ev ∈ evs, preservesFinal ev) →
      ∀ ev ∈ evs ++ [FsEv.unlinkTemp], preservesFinal ev := by
    intro evs hevs ev hev
    rcases List.mem_append.1 hev with h1 | h1
    · exact hevs ev h1
    · rw [List.mem_singleton.1 h1]; trivial
  intro k
  simp only [downloadValidate]
  cases downloaded with
  | false =>
      simp only [Bool.false_eq_true, if_false]
      cases ht : (levs.foldl applyEv fs0).tempFile with
      | none =>
          simp only [ht, Option.isSome_none, Bool.false_eq_true, if_false, List.append_nil]
          exact hAllPres levs hw k
      | some t =>
          simp only [ht, Option.isSome_some, if_true]
          exact hAllPres _ (hwU levs hw) k
  | true =>
      simp only [if_true]
      cases ht : (levs.foldl applyEv fs0).tempFile with
      | none => simp only [ht]; exact hAllPres levs hw k
      | some t =>
          simp only [ht]
          by_cases hsz : t.size < 100
          · simp only [if_pos hsz]
            exact hAllPres _ (hwU levs hw) k
          · simp only [if_neg hsz]
            have htc : t.complete = true := hc t ht rfl
            have hle : 100 ≤ t.size := Nat.le_of_not_lt hsz
            have hpre2 : (levs.foldl applyEv fs0).finalFile = fs0.finalFile :=
              foldl_preservesFinal levs hw fs0
            -- events are levs ++ (mid ++ [rename]); analyse the prefix length
            rw [List.append_assoc, List.take_append_eq_append_take, List.foldl_append]
            rcases Nat.lt_or_ge k levs.length with hk | hk
            · rw [Nat.sub_eq_zero_of_le (Nat.le_of_lt hk)]
              simp only [List.take_zero, List.foldl_nil]
              exact Or.inl (foldl_preservesFinal _
                (fun ev hev => hw ev (List.take_subset _ _ hev)) fs0)
            · rw [List.take_of_length_le hk]
              by_cases hfs : ((levs.foldl applyEv fs0).finalFile).isSome
              · simp only [hfs, if_true, List.singleton_append]
                rcases hj : k - levs.length with _ | _ | j <;>
                  simp only [List.take_zero, List.take_succ_cons, List.take_nil,
                    List.foldl_nil, List.foldl_cons]
                · exact Or.inl hpre2
                · exact Or.inr (Or.inl rfl)
                · refine Or.inr (Or.inr ⟨t, ?_, htc, hle⟩)
                  simp only [applyEv]
                  exact ht
              · simp only [hfs, Bool.false_eq_true, if_false, List.nil_append]
                rcases hj : k - levs.length with _ | j <;>
                  simp only [List.take_zero, List.take_succ_cons, List.take_nil,
                    List.foldl_nil, List.foldl_cons]
                · exact Or.inl hpre2
                · refine Or.inr (Or.inr ⟨t, ?_, htc, hle⟩)
                  simp only [applyEv]
                  exact ht

theorem downloadValidate_success_final (fs0 : MediaFS) (levs : List FsEv)
    (downloaded : Bool) (m : Metrics)
    (hres : (downloadValidate fs0 levs downloaded m).1 = true) :
    ∃ t, ((downloadValidate fs0 levs downloaded m).2.1.foldl applyEv fs0).finalFile = some t
      ∧ 100 ≤ t.size := by
  simp only [downloadValidate] at hres ⊢
  cases downloaded with
  | false => simp only [Bool.false_eq_true, if_false] at hres
  | true =>
      simp only [if_true] at hres ⊢
      cases ht : (levs.foldl applyEv fs0).tempFile with
      | none => simp only [ht] at hres; cases hres
      | some t =>
          simp only [ht] at hres ⊢
          by_cases hsz : t.size < 100
          · simp only [if_pos hsz] at hres; cases hres
          · simp only [if_neg hsz]
            refine ⟨t, ?_, Nat.le_of_not_lt hsz⟩
            rw [List.append_assoc, List.foldl_append]
            by_cases hfs : ((levs.foldl applyEv fs0).finalFile).isSome
            · simp only [hfs, if_true, List.singleton_append, List.foldl_cons,
                List.foldl_nil]
              simp only [applyEv]
              exact ht
            · simp only [hfs, Bool.false_eq_true, if_false, List.nil_append,
                List.foldl_cons, List.foldl_nil]
              simp only [applyEv]
              exact ht

/-- C2: every completed failing call of `_download_quantum_media` (download
produced no file, temp file below the 100-byte minimum, timeout after all
retries, or any other download error) deletes the temporary file and
returns failure with the final destination untouched; and at every
intermediate point of the call — hence under an arbitrary crash or
interruption — the final destination path holds either its original
content, or nothing, or a complete validated (≥ 100 byte) file, never a
half-written file: at most an orphaned temp file remains.  The
intermediate-state clause assumes the operation's temporary sibling path
is initially free, so the temp bytes present during the call are this
call's own. -/
theorem download_failure_atomic (noFile : Bool) (fs : MediaFS)
    (atts : List DlAttempt) (m : Metrics) :
    ((runDownload noFile fs atts m).1 = false →
        (runDownload noFile fs atts m).2.1.tempFile = none ∧
        (runDownload noFile fs atts m).2.1.finalFile = fs.finalFile)
    ∧ (fs.tempFile = none →
        ∀ k, finalIntact fs
          (((downloadMedia noFile fs atts m).2.1.take k).foldl applyEv fs)) := by
  have hw : ∀ ev ∈ (dlLoopEvents noFile 2 atts).1, preservesFinal ev :=
    writeOnly_preservesFinal (fun ev hev => dlLoopEvents_writeOnly _ _ _ _ hev)
  constructor
  · intro hres
    by_cases hskip : skipValid fs
    · simp [runDownload, downloadMedia, hskip] at hres
    · simp only [runDownload, downloadMedia, if_neg hskip] at hres ⊢
      exact downloadValidate_failure _ _ _ _ hw hres
  · intro hTemp k
    by_cases hskip : skipValid fs
    · simp only [downloadMedia, if_pos hskip, List.take_nil, List.foldl_nil]
      exact Or.inl rfl
    · simp only [downloadMedia, if_neg hskip]
      apply downloadValidate_trace _ _ _ _ hw
      intro t htt hdl
      cases noFile with
      | true =>
          rw [dlLoopEvents_noFile_nil] at htt
          simp only [List.foldl_nil] at htt
          rw [hTemp] at htt
          cases htt
      | false =>
          obtain ⟨n, hn⟩ := dlLoopEvents_downloaded_temp 2 atts fs hdl
          rw [hn] at htt
          injection htt with h1
          rw [← h1]

/-- Witness for `download_failure_atomic`: a concrete run that times out on
all three attempts (leaving partial temp bytes) fails, deletes the temp
file, leaves the (initially empty) final path empty, and its first
intermediate state keeps the final path intact. -/
theorem download_failure_atomic_witness :
    ((runDownload false ⟨none, none⟩
        [DlAttempt.timeout (some 500), DlAttempt.timeout none, DlAttempt.timeout (some 20)]
        initialMetrics).1 = false)
    ∧ ((runDownload false ⟨none, none⟩
        [DlAttempt.timeout (some 500), DlAttempt.timeout none, DlAttempt.timeout (some 20)]
        initialMetrics).2.1.tempFile = none
      ∧ (runDownload false ⟨none, none⟩
        [DlAttempt.timeout (some 500), DlAttempt.timeout none, DlAttempt.timeout (some 20)]
        initialMetrics).2.1.finalFile = none)
    ∧ ((⟨none, none⟩ : MediaFS).tempFile = none)
    ∧ finalIntact ⟨none, none⟩
        (((downloadMedia false ⟨none, none⟩
            [DlAttempt.timeout (some 500), DlAttempt.timeout none, DlAttempt.timeout (some 20)]
            initialMetrics).2.1.take 1).foldl applyEv ⟨none, none⟩) :=
  ⟨by decide,
   (download_failure_atomic false ⟨none, none⟩
      [DlAttempt.timeout (some 500), DlAttempt.timeout none, DlAttempt.timeout (some 20)]
      initialMetrics).1 (by decide),
   rfl,
   (download_failure_atomic false ⟨none, none⟩
      [DlAttempt.timeout (some 500), DlAttempt.timeout none, DlAttempt.timeout (some 20)]
      initialMetrics).2 rfl 1⟩

/-- C5 counterexample: the already-acquired skip threshold is strictly
greater than 100 bytes (`path.stat().st_size > 100`, source line 332), so a
target path already holding a ≥ 100-byte file — here exactly 100 bytes,
the minimum a successful download itself is allowed to produce — is NOT
treated as already-acquired: the call performs a fresh network download
(a `writeTemp` download event occurs in its trace) and replaces the file,
contradicting the claim that every ≥ 100-byte target is skipped. -/
theorem media_skip_threshold_counterexample :
    (⟨some ⟨100, true⟩, none⟩ : MediaFS).finalFile = some ⟨100, true⟩
    ∧ (100 : Nat) ≥ 100
    ∧ FsEv.writeTemp ⟨500, true⟩ ∈
        (downloadMedia false ⟨some ⟨100, true⟩, none⟩ [DlAttempt.ok 500] initialMetrics).2.1
    ∧ (runDownload false ⟨some ⟨100, true⟩, none⟩
        [DlAttempt.ok 500] initialMetrics).2.1.finalFile = some ⟨500, true⟩ :=
  ⟨rfl, le_refl _, by decide, by decide⟩

/-- C5 (amended): the idempotent-skip threshold is strictly greater than
100 bytes.  If the target path already holds a file of more than 100 bytes,
the acquirer reports success, updates the media metrics, and performs no
network download (its event trace is empty and the filesystem is
unchanged); every successful call leaves a ≥ 100-byte file at the target,
so a second call after a first call that produced a file exceeding 100
bytes succeeds without re-downloading (a first call producing exactly 100
bytes is re-downloaded — see the counterexample). -/
theorem media_skip_idempotent :
    (∀ (noFile : Bool) (fs : MediaFS) (atts : List DlAttempt) (m : Metrics) (f : MFile),
        fs.finalFile = some f → 100 < f.size →
        downloadMedia noFile fs atts m =
          (true, [], { m with media := m.media + 1, dataVolume := m.dataVolume + f.size })
        ∧ runDownload noFile fs atts m =
          (true, fs, { m with media := m.media + 1, dataVolume := m.dataVolume + f.size }))
    ∧ (∀ (noFile : Bool) (fs : MediaFS) (atts : List DlAttempt) (m : Metrics),
        (runDownload noFile fs atts m).1 = true →
        ∃ g, (runDownload noFile fs atts m).2.1.finalFile = some g ∧ 100 ≤ g.size) := by
  constructor
  · intro noFile fs atts m f hf hsz
    have hskip : skipValid fs = true := by
      simp [skipValid, hf]; exact hsz
    constructor
    · simp only [downloadMedia, if_pos hskip, hf]
      rfl
    · simp only [runDownload, downloadMedia, if_pos hskip, hf, List.foldl_nil]
      rfl
  · intro noFile fs atts m hres
    by_cases hskip : skipValid fs
    · simp only [runDownload, downloadMedia, if_pos hskip, List.foldl_nil]
      cases hf : fs.finalFile with
      | none => rw [skipValid, hf] at hskip; cases hskip
      | some f =>
          refine ⟨f, rfl, ?_⟩
          rw [skipValid, hf] at hskip
          have := of_decide_eq_true hskip
          omega
    · simp only [runDownload, downloadMedia, if_neg hskip] at hres ⊢
      exact downloadValidate_success_final _ _ _ _ hres

/-- Witness for `media_skip_idempotent`: a target already holding a
150-byte file is skipped — success, metrics bumped, filesystem unchanged —
even though the supplied download attempt would fail. -/
theorem media_skip_idempotent_witness :
    ((⟨some ⟨150, true⟩, none⟩ : MediaFS).finalFile = some ⟨150, true⟩ ∧ (100 : Nat) < 150)
    ∧ runDownload false ⟨some ⟨150, true⟩, none⟩ [DlAttempt.fail none] initialMetrics =
        (true, ⟨some ⟨150, true⟩, none⟩, ⟨0, 1, 150, 0⟩) :=
  ⟨⟨rfl, by decide⟩,
   (media_skip_idempotent.1 false ⟨some ⟨150, true⟩, none⟩ [DlAttempt.fail none]
      initialMetrics ⟨150, true⟩ rfl (by decide)).2⟩

/-- C6 counterexample: an archive whose written bytes were truncated before
verification cannot even be reopened by the read-only verification pass, so
the scan raises and lands in the `except` branch (`verror`) — and on that
branch `_close_quantum_zip` logs the error but does NOT delete the container
file, contradicting the claim that the file is deleted whenever the
integrity check fails. -/
theorem close_verror_keeps_file :
    (closeQuantumZipVerify (some ⟨1, 4096⟩) VerifyOutcome.verror).containerDeleted = false
    ∧ (closeQuantumZipVerify (some ⟨1, 4096⟩) VerifyOutcome.verror).loggedFailure = true
    ∧ (closeQuantumZipVerify (some ⟨1, 4096⟩) VerifyOutcome.verror).currentZip = none :=
  ⟨rfl, rfl, rfl⟩

/-- C6 (amended): every `close()` of an open archive finalizes the container
and reopens it read-only to scan every entry's checksum; the container file
is deleted exactly when that scan itself succeeds and names a corrupt entry
(`testzip()` returning a bad name) — when the verification pass raises
instead (e.g. a truncated container that cannot be reopened) the failure is
logged but the file is kept; a successful scan logs verification; and in
all cases (success, corruption, or verification error) the current-archive
state is cleared so a subsequent open starts cleanly. -/
theorem close_verify_behaviour :
    ∀ (cur : Option ZipArchive) (vout : VerifyOutcome),
      (closeQuantumZipVerify cur vout).currentZip = none
      ∧ (closeQuantumZipVerify cur vout).containerDeleted =
          (cur.isSome && decide (vout = VerifyOutcome.badEntry))
      ∧ (closeQuantumZipVerify cur vout).loggedVerified =
          (cur.isSome && decide (vout = VerifyOutcome.allOk))
      ∧ (closeQuantumZipVerify cur vout).loggedFailure =
          (cur.isSome && !decide (vout = VerifyOutcome.allOk)) := by
  intro cur vout
  cases cur <;> cases vout <;> exact ⟨rfl, rfl, rfl, rfl⟩

/-- C3 (amended): the fingerprint is a pure deterministic function of
(channel, source id) — `fingerprint channel id = fingerprint channel id`
always — computed as a fixed-size 16-byte (32 hex character) BLAKE2b hash
over the concatenation of the decimal source message id and the channel
name; however distinct pairs whose concatenations coincide share a
fingerprint, so it does NOT differ for every two differing pairs. -/
theorem fingerprint_deterministic_fixed_size :
    (∀ channel (msgId : Nat), fingerprint channel msgId = fingerprint channel msgId)
    ∧ (∀ channel (msgId : Nat), (fingerprint channel msgId).length = 32) := by
  refine ⟨fun _ _ => rfl, fun channel msgId => ?_⟩
  show (hexChars (blake2b16 (strBytes (toString msgId ++ channel)))).length = 32
  rw [hexChars_length, blake2b16_length]

theorem scrapeBatches_aux {α : Type} :
    ∀ (stream : List (Option α)) (acc : List (List α) × List α),
      (∀ b ∈ acc.1, b.length = CHUNK_SIZE) → acc.2.length < CHUNK_SIZE →
      (∀ b ∈ (stream.foldl stepBatch acc).1, b.length = CHUNK_SIZE)
      ∧ (stream.foldl stepBatch acc).2.length < CHUNK_SIZE
      ∧ (stream.foldl stepBatch acc).1.flatten ++ (stream.foldl stepBatch acc).2
        = acc.1.flatten ++ acc.2 ++ stream.filterMap id := by
  intro stream
  induction stream with
  | nil => intro acc h1 h2; exact ⟨h1, h2, by simp⟩
  | cons p rest ih =>
      intro acc h1 h2
      cases p with
      | none =>
          have heq : stepBatch acc (none : Option α) = acc := rfl
          simp only [List.foldl_cons, heq]
          obtain ⟨g1, g2, g3⟩ := ih acc h1 h2
          exact ⟨g1, g2, by rw [g3]; simp⟩
      | some x =>
          simp only [List.foldl_cons]
          by_cases hcs : CHUNK_SIZE ≤ (acc.2 ++ [x]).length
          · have heq : stepBatch acc (some x) = (acc.1 ++ [acc.2 ++ [x]], []) := by
              simp only [stepBatch]
              rw [if_pos hcs]
            have hlen : (acc.2 ++ [x]).length = CHUNK_SIZE := by
              simp only [List.length_append] at hcs ⊢
              simp at hcs ⊢
              omega
            have h1n : ∀ b ∈ acc.1 ++ [acc.2 ++ [x]], b.length = CHUNK_SIZE := by
              intro b hb
              rcases List.mem_append.1 hb with hb | hb
              · exact h1 b hb
              · rw [List.mem_singleton.1 hb]; exact hlen
            have h2n : ([] : List α).length < CHUNK_SIZE := by
              simp [CHUNK_SIZE]
            obtain ⟨g1, g2, g3⟩ := ih (acc.1 ++ [acc.2 ++ [x]], []) h1n h2n
            rw [heq]
            refine ⟨g1, g2, ?_⟩
            rw [g3]
            simp [List.filterMap_cons, List.flatten_append, List.append_assoc]
          · have heq : stepBatch acc (some x) = (acc.1, acc.2 ++ [x]) := by
              simp only [stepBatch]
              rw [if_neg hcs]
            have h2n : (acc.2 ++ [x]).length < CHUNK_SIZE := by
              simp only [List.length_append] at hcs ⊢
              simp at hcs ⊢
              omega
            obtain ⟨g1, g2, g3⟩ := ih (acc.1, acc.2 ++ [x]) h1 h2n
            rw [heq]
            refine ⟨g1, g2, ?_⟩
            rw [g3]
            simp [List.filterMap_cons, List.append_assoc]

theorem scrape_fill {α : Type} :
    ∀ (xs : List α) (flushes : List (List α)) (batch : List α),
      batch.length + xs.length = CHUNK_SIZE → xs ≠ [] →
      (xs.map some).foldl stepBatch (flushes, batch) = (flushes ++ [batch ++ xs], []) := by
  intro xs
  induction xs with
  | nil => intro flushes batch hlen hne; exact absurd rfl hne
  | cons x xs ih =>
      intro flushes batch hlen hne
      cases xs with
      | nil =>
          simp only [List.map_cons, List.map_nil, List.foldl_cons, List.foldl_nil]
          show stepBatch (flushes, batch) (some x) = _
          have hge : CHUNK_SIZE ≤ (batch ++ [x]).length := by
            simp at hlen ⊢; omega
          simp only [stepBatch]
          rw [if_pos hge]
      | cons y ys =>
          have hlt : ¬ CHUNK_SIZE ≤ (batch ++ [x]).length := by
            simp at hlen ⊢; omega
          have hstep : stepBatch (flushes, batch) (some x) = (flushes, batch ++ [x]) := by
            simp only [stepBatch]
            rw [if_neg hlt]
          rw [List.map_cons, List.foldl_cons, hstep,
            ih flushes (batch ++ [x]) (by simp at hlen ⊢; omega) (by simp)]
          simp

/-- C8: over any channel message stream (with failed messages contributing
nothing), every in-loop flush happens at exactly `CHUNK_SIZE = 300`
accumulated processed messages, after which the in-memory batch is reset
to empty (so the 301st processed message starts a new batch); the batch
left after every full iteration holds fewer than 300 messages, i.e. it
never exceeds its capacity; the flushes plus the end-of-stream flush of a
non-empty remainder partition the processed messages in order; and
concretely a stream of 301 processed messages flushes exactly the first
300 and leaves the 301st alone in a fresh batch. -/
theorem batch_flush_boundary {α : Type} (stream : List (Option α)) :
    (∀ b ∈ (scrapeBatches stream).1, b.length = 300)
    ∧ (scrapeBatches stream).2.length < 300
    ∧ (channelFlushes stream).flatten = stream.filterMap id
    ∧ scrapeBatches ((List.range 301).map some) = ([List.range 300], [(300 : Nat)]) := by
  obtain ⟨g1, g2, g3⟩ := scrapeBatches_aux stream ([], [])
    (by intro b hb; cases hb) (by simp [CHUNK_SIZE])
  have h301 : scrapeBatches ((List.range 301).map some)
      = ([List.range 300], [(300 : Nat)]) := by
    rw [List.range_succ, List.map_append]
    unfold scrapeBatches
    rw [List.foldl_append,
      scrape_fill (List.range 300) [] [] (by simp [CHUNK_SIZE]) (by simp)]
    simp only [List.nil_append, List.map_cons, List.map_nil, List.foldl_cons,
      List.foldl_nil]
    show stepBatch ([List.range 300], []) (some 300) = _
    simp only [stepBatch]
    rw [if_neg (by simp [CHUNK_SIZE])]
    simp
  refine ⟨g1, g2, ?_, h301⟩
  unfold channelFlushes
  by_cases hemp : (scrapeBatches stream).2.isEmpty
  · rw [List.isEmpty_iff] at hemp
    simp only [scrapeBatches] at g3 hemp ⊢
    rw [if_pos (by rw [List.isEmpty_iff]; exact hemp)]
    simpa [hemp] using g3
  · simp only [scrapeBatches] at g3 hemp ⊢
    rw [if_neg hemp]
    simp only [List.flatten_append, List.flatten_cons, List.flatten_nil,
      List.append_nil]
    simpa using g3

/-- Witness for `batch_flush_boundary`: a concrete three-message stream
(one failed message) keeps its batch under capacity and flushes exactly
the processed messages in order. -/
theorem batch_flush_boundary_witness :
    ((scrapeBatches ([some 1, none, some 2] : List (Option Nat))).2.length < 300)
    ∧ (channelFlushes ([some 1, none, some 2] : List (Option Nat))).flatten
        = ([some 1, none, some 2] : List (Option Nat)).filterMap id :=
  ⟨(batch_flush_boundary [some 1, none, some 2]).2.1,
   (batch_flush_boundary [some 1, none, some 2]).2.2.1⟩

theorem runDownload_messages (noFile : Bool) (fs : MediaFS) (atts : List DlAttempt)
    (m : Metrics) : (runDownload noFile fs atts m).2.2.messages = m.messages := by
  simp only [runDownload, downloadMedia]
  by_cases hskip : skipValid fs
  · simp [hskip]
  · simp only [if_neg hskip, downloadValidate]
    cases hd : (dlLoopEvents noFile 2 atts).2 with
    | false => simp
    | true =>
        simp only [if_true]
        cases ht : ((dlLoopEvents noFile 2 atts).1.foldl applyEv fs).tempFile with
        | none => simp
        | some t =>
            by_cases hsz : t.size < 100 <;> simp [hsz]

theorem handleQuantumMedia_fail_none (msg : RawMsg) (channel msgHash : String)
    (env : MediaCallEnv) (fs : MediaFS) (pack : PackState) (m : Metrics)
    (hfail : msg.media = none ∨ env.raised = true ∨
      (runDownload env.noFile fs env.atts m).1 = false) :
    (handleQuantumMedia msg channel msgHash env fs pack m).1 = none := by
  rcases hfail with h | h | h
  · simp [handleQuantumMedia, h]
  · cases hm : msg.media with
    | none => simp [handleQuantumMedia, hm]
    | some media => simp [handleQuantumMedia, hm, h]
  · cases hm : msg.media with
    | none => simp [handleQuantumMedia, hm]
    | some media =>
        by_cases hr : env.raised
        · simp [handleQuantumMedia, hm, hr]
        · simp [handleQuantumMedia, hm, hr, h]

theorem handleQuantumMedia_messages (msg : RawMsg) (channel msgHash : String)
    (env : MediaCallEnv) (fs : MediaFS) (pack : PackState) (m : Metrics) :
    (handleQuantumMedia msg channel msgHash env fs pack m).2.2.2.messages
      = m.messages := by
  cases hm : msg.media with
  | none => simp [handleQuantumMedia, hm]
  | some media =>
      by_cases hr : env.raised
      · simp [handleQuantumMedia, hm, hr]
      · cases hd : (runDownload env.noFile fs env.atts m).1 with
        | false =>
            simp [handleQuantumMedia, hm, hr, hd, runDownload_messages]
        | true =>
            simp only [handleQuantumMedia, hm, hr, hd, Bool.not_true,
              Bool.false_eq_true, if_false]
            by_cases himg : isImageExt (quantumExtension media)
            · cases hopt : env.optOutcome with
              | none => simp [himg, hopt, runDownload_messages]
              | some newSize => simp [himg, hopt, runDownload_messages]
            · simp [himg, runDownload_messages]

/-- C9: a message whose media handling fails — no media at all, a download
failure after all retries, or any exception inside the media pipeline —
still yields a complete `MsgRecord` from the message processor: the record
is returned (not dropped), carries the fingerprint, id, channel, content
and engagement metrics, has its `media` field set to `none`, and the
message is still counted in the `messages` metric. -/
theorem media_failure_keeps_message (msg : RawMsg) (channel : String)
    (env : MediaCallEnv) (fs : MediaFS) (pack : PackState) (m : Metrics)
    (hfail : msg.media = none ∨ env.raised = true ∨
      (runDownload env.noFile fs env.atts m).1 = false) :
    ∃ record,
      (processQuantumMessage msg channel env fs pack m).1 = some record
      ∧ record.media = none
      ∧ record.qid = fingerprint channel msg.id
      ∧ record.id = msg.id
      ∧ record.channel = channel
      ∧ record.content = msg.text.getD ""
      ∧ record.metrics.engagement
          = calculateEngagement ⟨msg.views, msg.forwards, msg.replies⟩
      ∧ (processQuantumMessage msg channel env fs pack m).2.2.2.messages
          = m.messages + 1 := by
  refine ⟨_, rfl, ?_, rfl, rfl, rfl, rfl, rfl, ?_⟩
  · exact handleQuantumMedia_fail_none msg channel _ env fs pack m hfail
  · show (handleQuantumMedia msg channel _ env fs pack m).2.2.2.messages + 1
      = m.messages + 1
    rw [handleQuantumMedia_messages]

/-- Witness for `media_failure_keeps_message`: a concrete message without
media still yields its full record with `media = none` and is counted. -/
theorem media_failure_keeps_message_witness :
    ((⟨5, some "2024-01-01T00:00:00", some 1000, some "hi", some 2, none, none,
        [], none⟩ : RawMsg).media = none
      ∨ (⟨false, false, [], none, true, 7⟩ : MediaCallEnv).raised = true
      ∨ (runDownload false ⟨none, none⟩ [] initialMetrics).1 = false)
    ∧ ∃ record,
      (processQuantumMessage
          ⟨5, some "2024-01-01T00:00:00", some 1000, some "hi", some 2, none, none,
            [], none⟩ "CheMed123" ⟨false, false, [], none, true, 7⟩
          ⟨none, none⟩ initialPackState initialMetrics).1 = some record
      ∧ record.media = none
      ∧ record.qid = fingerprint "CheMed123" (5 : Nat)
      ∧ record.id = 5
      ∧ record.channel = "CheMed123"
      ∧ record.content = (some "hi").getD ""
      ∧ record.metrics.engagement = calculateEngagement ⟨some 2, none, none⟩
      ∧ (processQuantumMessage
          ⟨5, some "2024-01-01T00:00:00", some 1000, some "hi", some 2, none, none,
            [], none⟩ "CheMed123" ⟨false, false, [], none, true, 7⟩
          ⟨none, none⟩ initialPackState initialMetrics).2.2.2.messages
          = initialMetrics.messages + 1 :=
  ⟨Or.inl rfl,
   media_failure_keeps_message
     ⟨5, some "2024-01-01T00:00:00", some 1000, some "hi", some 2, none, none,
       [], none⟩ "CheMed123" ⟨false, false, [], none, true, 7⟩
     ⟨none, none⟩ initialPackState initialMetrics (Or.inl rfl)⟩

/-- C4 (code bug): `_watchdog_monitor`'s poll does implement the claimed
stall reaction — elapsed time above 300 s triggers the emergency restart,
which closes any open archive, disconnects, and exits with the
stall-specific status 3, while at most 300 s keeps polling — but the
`run_quantum_acquisition` that actually executes is the SECOND definition
of that name in the class body (Python lets the later binding win), and it
never creates the watchdog task; only the shadowed first definition does.
Hence in every run of the shipped workflow the emergency-restart path is
invoked zero times during a stall, not exactly once. -/
theorem watchdog_never_started :
    (∀ (now : Nat) (st : WatchState), now - st.lastActivity > 300 →
        watchdogPoll now st =
          PollResult.exited 3 { st with zipOpen := false, connected := false })
    ∧ (∀ (now : Nat) (st : WatchState), ¬(now - st.lastActivity > 300) →
        watchdogPoll now st = PollResult.keepRunning st)
    ∧ effectiveRunSteps = runAcquisitionStepsV2
    ∧ RunStep.startWatchdog ∉ effectiveRunSteps
    ∧ RunStep.startWatchdog ∈ runAcquisitionStepsV1 := by
  refine ⟨?_, ?_, by decide, by decide, by decide⟩
  · intro now st h
    simp [watchdogPoll, emergencyRestart, if_pos h]
  · intro now st h
    simp [watchdogPoll, if_neg h]

/-- Witness for `watchdog_never_started`: a 301 s stall triggers the exit-3
restart path of the (never-started) watchdog; a 30 s gap does not. -/
theorem watchdog_never_started_witness :
    ((301 : Nat) - (0 : Nat) > 300
      ∧ watchdogPoll 301 ⟨0, true, true⟩ = PollResult.exited 3 ⟨0, false, false⟩)
    ∧ (¬((30 : Nat) - (0 : Nat) > 300)
      ∧ watchdogPoll 30 ⟨0, true, true⟩ = PollResult.keepRunning ⟨0, true, true⟩) :=
  ⟨⟨by decide, watchdog_never_started.1 301 ⟨0, true, true⟩ (by decide)⟩,
   ⟨by decide, (watchdog_never_started.2.1) 30 ⟨0, true, true⟩ (by decide)⟩⟩

end TelegramScraper
